import Mathlib

/- Verification development for the ragika RAG service core
   (services/api/src/index.ts). The handlers and helper functions of the
   service are shallowly embedded as pure Lean functions: each network backend
   is modelled by an explicit outcome parameter, and each handler returns
   its reply together with the list of network requests it issued. -/

namespace Ragika

/-- JS truthiness of an optional string field: an absent field (undefined)
and the empty string are falsy, every other string is truthy. -/
def truthyStr (o : Option String) : Bool :=
  match o with
  | none => false
  | some s => !(s == (""))

/-- JS expression `o || d` on an optional string: the default is taken when
the field is absent or empty (falsy). -/
def jsOrStr (o : Option String) (d : String) : String :=
  match o with
  | none => d
  | some s => if s == ("") then d else s

/-- State machine of the JS regex split on runs of whitespace
(`text.split(/\s+/)` in chunkText). The state is `some cur` while a piece
is being accumulated (characters kept in reverse) and `none` inside a
separator run. Empty input yields one empty piece, and leading or trailing
whitespace runs yield empty pieces, exactly as in JS. -/
def jsSplitAux : List Char → Option (List Char) → List (List Char)
  | [], some cur => [cur.reverse]
  | [], none => [[]]
  | c :: rest, some cur =>
    if c.isWhitespace then cur.reverse :: jsSplitAux rest none
    else jsSplitAux rest (some (c :: cur))
  | c :: rest, none =>
    if c.isWhitespace then jsSplitAux rest none
    else jsSplitAux rest (some [c])

/-- JS `text.split(/\s+/)` used by chunkText. -/
def jsSplitWs (s : String) : List String :=
  (jsSplitAux s.data (some [])).map fun cs => String.mk cs

/-- JS `Array.prototype.join(sep)`. -/
def jsJoin (sep : String) : List String → String
  | [] => ("")
  | [x] => x
  | x :: y :: rest => x ++ sep ++ jsJoin sep (y :: rest)

/-- Loop body of chunkText: words are accumulated into `current` and
flushed (joined with single spaces) whenever the running count reaches
`maxTokens`; a nonempty remainder is flushed at the end. -/
def chunkAux (maxTokens : Nat) : List String → List String → Nat → List String
  | [], current, _ => if 0 < current.length then [jsJoin (" ") current] else []
  | w :: ws, current, count =>
    if maxTokens ≤ count + 1 then
      jsJoin (" ") (current ++ [w]) :: chunkAux maxTokens ws [] 0
    else
      chunkAux maxTokens ws (current ++ [w]) (count + 1)

/-- chunkText from the service: split the text on whitespace runs and
accumulate the resulting tokens into chunks of at most `maxTokens` words. -/
def chunkText (text : String) (maxTokens : Nat) : List String :=
  chunkAux maxTokens (jsSplitWs text) [] 0

/-- Outcome of the rerank backend request, as seen by rerankContexts:
a transport failure, a 2xx response whose body lacks the `scores` array,
or a response carrying per-text scores. -/
inductive RerankBackendResult where
  | netError : RerankBackendResult
  | malformed : RerankBackendResult
  | scores : List ℚ → RerankBackendResult
deriving DecidableEq

/-- One step of the stable descending sort performed by
`.sort((a, b) => b.score - a.score)`: a pair is inserted after every
already-placed pair whose score is at least as large, so pairs inserted
later (larger original index) stay after earlier pairs with equal score.
ES2019 requires Array.prototype.sort to be stable, which this models. -/
def insertDesc (p : ℚ × Nat) : List (ℚ × Nat) → List (ℚ × Nat)
  | [] => [p]
  | q :: rest => if q.1 < p.1 then p :: q :: rest else q :: insertDesc p rest

/-- The stable descending sort of score/index pairs, inserting the pairs
in their original order. -/
def sortDesc (l : List (ℚ × Nat)) : List (ℚ × Nat) :=
  l.foldl (fun acc q => insertDesc q acc) []

/-- Score/index pair list `scores.map((score, idx) => ({score, idx}))`
built by rerankContexts before sorting. -/
def pairsOf (scores : List ℚ) : List (ℚ × Nat) :=
  scores.enum.map fun p => (p.2, p.1)

/-- Score-to-permutation conversion in rerankContexts:
`scores.map((score, idx) => ({score, idx})).sort((a, b) => b.score - a.score).map(item => item.idx)`. -/
def sortPerm (scores : List ℚ) : List Nat :=
  (sortDesc (pairsOf scores)).map fun p => p.2

/-- rerankContexts from the service. When no rerank base URL is configured
it returns `contexts.map((_, idx) => idx)`; when configured it POSTs to the
backend and, if the response carries a `scores` array, sorts the indices on
descending score; on a transport error or a response without `scores` it
returns the index sequence unchanged. -/
def rerankContexts (configured : Bool) (_query : String) (contexts : List String)
    (backend : RerankBackendResult) : List Nat :=
  if configured = false then contexts.enum.map fun p => p.1
  else
    match backend with
    | RerankBackendResult.scores s => sortPerm s
    | RerankBackendResult.malformed => contexts.enum.map fun p => p.1
    | RerankBackendResult.netError => contexts.enum.map fun p => p.1

/-- LLM provider selector (`LLM_PROVIDER`): `ollama` or the
OpenAI-compatible default branch. -/
inductive Provider where
  | ollama : Provider
  | openaiCompat : Provider
deriving DecidableEq

/-- Body of a successful Ollama `/api/generate` response: `res.data.response`
may be absent (JS undefined), which the code does not check. -/
structure OllamaBody where
  response : Option String
deriving DecidableEq

/-- Body of a successful OpenAI-compatible `/v1/chat/completions` response:
the `choices` array may be absent, and each choice carries
`message.content`. -/
structure OpenAiBody where
  choices : Option (List String)
deriving DecidableEq

/-- generateAnswer from the service. The Ollama branch returns
`res.data.response` with no shape validation (an absent field flows out as
undefined); the OpenAI-compatible branch throws unless `choices` is present
and non-empty, and otherwise returns the first choice. A transport error or
timeout on either branch propagates as an error. -/
def generateAnswer (provider : Provider)
    (ollamaResult : Except Unit OllamaBody)
    (openaiResult : Except Unit OpenAiBody) : Except Unit (Option String) :=
  match provider with
  | Provider.ollama =>
    match ollamaResult with
    | Except.error _ => Except.error ()
    | Except.ok body => Except.ok body.response
  | Provider.openaiCompat =>
    match openaiResult with
    | Except.error _ => Except.error ()
    | Except.ok body =>
      match body.choices with
      | some (c :: _) => Except.ok (some c)
      | some [] => Except.error ()
      | none => Except.error ()

/-- Payload stored with each Qdrant point and returned with each search
hit: `{documentId, category, text, title}`. -/
structure HitPayload where
  documentId : String
  category : String
  text : String
  title : String
deriving DecidableEq

/-- One Qdrant search hit: id, similarity score and payload. -/
structure Hit where
  id : String
  score : ℚ
  payload : HitPayload
deriving DecidableEq

/-- Default hit used to totalize JS `hits[i]` indexing. -/
def hitDefault : Hit :=
  ⟨(""), 0, ⟨(""), (""), (""), ("")⟩⟩

/-- Citation record `{documentId, chunkId}` of the chat response. -/
structure Citation where
  documentId : String
  chunkId : String
deriving DecidableEq

/-- Default citation used with List.getD in statements. -/
def citationDefault : Citation :=
  ⟨(""), ("")⟩

/-- Citation built from one selected hit:
`{documentId: hits[i].payload.documentId, chunkId: hits[i].id.toString()}`. -/
def citationOfHit (h : Hit) : Citation :=
  ⟨h.payload.documentId, h.id⟩

/-- Citation list of the chat handler, mapped over the selected indices in
selection order. -/
def citationsOf (hits : List Hit) (sel : List Nat) : List Citation :=
  sel.map fun i => citationOfHit (hits.getD i hitDefault)

/-- Marker prefixing in the chat handler, generalized over the starting
index: element k of `markFrom n ctxs` is the context prefixed with the
1-indexed bracketed marker `[n+k+1]`. -/
def markFrom (n : Nat) : List String → List String
  | [] => []
  | c :: rest => (("[") ++ toString (n + 1) ++ ("] ") ++ c) :: markFrom (n + 1) rest

/-- `selectedContexts.map((ctx, i) => `[i+1] ctx`)` of the chat handler. -/
def markedContexts (ctxs : List String) : List String :=
  markFrom 0 ctxs

/-- Fixed instruction prefix of the prompt. -/
def promptHeader : String :=
  ("You are an institutional knowledge assistant. Use the context provided to answer the question. Respond in a concise and clear manner. Cite the source of your information using the bracketed numbers corresponding to the context. If you do not know the answer based on the context, say you don\x27t know.\n\nContext:\n")

/-- Separator between the context block and the question. -/
def promptQuestion : String :=
  ("\n\nQuestion: ")

/-- Trailing part of the prompt. -/
def promptAnswer : String :=
  ("\nAnswer:")

/-- Full prompt assembled by the chat handler. -/
def promptOf (q ctxString : String) : String :=
  promptHeader ++ ctxString ++ promptQuestion ++ q ++ promptAnswer

/-- Separator used to join the marked contexts. -/
def sepNlNl : String :=
  ("\n\n")

/-- Fixed zero-hit answer of the chat handler. -/
def noInfoAnswer : String :=
  ("I\x27m sorry, I couldn\x27t find any information relevant to your question.")

/-- Generic failure message of the chat handler. -/
def chatFailMsg : String :=
  ("Failed to process chat query")

/-- Generic failure message of the ingest handler. -/
def ingestFailMsg : String :=
  ("Failed to ingest document")

/-- State of the vector store as far as ensureCollection observes it. -/
structure QdrantState where
  collectionExists : Bool
deriving DecidableEq

/-- Category filter clause `{key: 'category', match: {value}}`. -/
structure FilterClause where
  key : String
  value : String
deriving DecidableEq

/-- Search filter `{must: [...]}`. -/
structure SearchFilter where
  must : List FilterClause
deriving DecidableEq

/-- Body of the Qdrant search request issued by the chat handler. -/
structure SearchRequest where
  vector : Option (List ℚ)
  top : Nat
  filter : Option SearchFilter
deriving DecidableEq

/-- One point of the ingest upsert request. -/
structure Point where
  id : String
  payload : HitPayload
  vector : Option (List ℚ)
deriving DecidableEq

/-- Network requests a handler can issue, in issue order. -/
inductive NetCall where
  | provisionCheck : NetCall
  | provisionCreate : NetCall
  | embed : NetCall
  | search : SearchRequest → NetCall
  | rerank : NetCall
  | generate : String → NetCall
  | upsert : List Point → NetCall
deriving DecidableEq

/-- ensureCollection from the service, over an explicit store state. The
GET existence check succeeds exactly when the collection exists and the
network does not fail (a 404 surfaces as an axios error); any check failure
falls through to the PUT creation request, whose failure is the only error
the function propagates. Returns the result, the new store state and the
issued requests. -/
def ensureCollection (s : QdrantState) (checkNetFails : Bool) (createFails : Bool) :
    Except Unit Unit × QdrantState × List NetCall :=
  if s.collectionExists && !checkNetFails then
    (Except.ok (), s, [NetCall.provisionCheck])
  else if createFails then
    (Except.error (), s, [NetCall.provisionCheck, NetCall.provisionCreate])
  else
    (Except.ok (), ⟨true⟩, [NetCall.provisionCheck, NetCall.provisionCreate])

/-- Filter construction of the chat handler: `let filter = undefined;
if (category) filter = {must: [{key: 'category', match: {value: category}}]}`.
A missing or empty (falsy) category leaves the filter undefined. -/
def buildFilter (category : Option String) : Option SearchFilter :=
  if truthyStr category then some ⟨[⟨("category"), category.getD ("")⟩]⟩ else none

/-- Environment configuration used by the chat handler. -/
structure Config where
  topK : Nat
  maxContext : Nat
deriving DecidableEq

/-- Body of the chat query request; absent fields model undefined. -/
structure ChatQueryRequest where
  query : Option String
  category : Option String
deriving DecidableEq

/-- Outcomes of every backend the chat handler can reach, fixed before the
request is processed. -/
structure QueryBackends where
  ensureCheckFails : Bool
  ensureCreateFails : Bool
  embedResult : Except Unit (List (List ℚ))
  searchResult : Except Unit (List Hit)
  rerankConfigured : Bool
  rerankBackend : RerankBackendResult
  provider : Provider
  ollamaResult : Except Unit OllamaBody
  openaiResult : Except Unit OpenAiBody

/-- Reply of the chat endpoint. -/
inductive QueryReply where
  | badRequest : String → QueryReply
  | serverError : String → QueryReply
  | success : String → List Citation → QueryReply
deriving DecidableEq

/-- Tail of the chat handler after the rerank permutation is known:
take the first maxContext indices, map them to contexts and citations,
assemble the prompt and call the generator. JS indexing `hits[i].payload`
on an out-of-range index throws a TypeError that the surrounding catch
turns into a 500, as does `rawAnswer.trim()` when the generator returned
undefined. Returns the reply and the requests issued by this tail. -/
def respondStage (cfg : Config) (qv : String) (b : QueryBackends)
    (hits : List Hit) (order : List Nat) : QueryReply × List NetCall :=
  let contexts := hits.map fun h => h.payload.text
  let sel := order.take cfg.maxContext
  if sel.all fun i => decide (i < hits.length) then
    let selectedContexts := sel.map fun i => contexts.getD i ("")
    let citations := citationsOf hits sel
    let contextString := jsJoin sepNlNl (markedContexts selectedContexts)
    let prompt := promptOf qv contextString
    match generateAnswer b.provider b.ollamaResult b.openaiResult with
    | Except.error _ => (QueryReply.serverError chatFailMsg, [NetCall.generate prompt])
    | Except.ok none => (QueryReply.serverError chatFailMsg, [NetCall.generate prompt])
    | Except.ok (some raw) => (QueryReply.success (String.trim raw) citations, [NetCall.generate prompt])
  else
    (QueryReply.serverError chatFailMsg, [])

/-- The `/chat/query` handler. Validation happens before any network call;
then the pipeline runs provision → embed → search → optional rerank →
select → generate, stopping with a 500 at the first failing stage and with
the fixed no-information success on zero hits. -/
def chatQuery (cfg : Config) (req : ChatQueryRequest) (b : QueryBackends)
    (s : QdrantState) : QueryReply × List NetCall :=
  if truthyStr req.query then
    match ensureCollection s b.ensureCheckFails b.ensureCreateFails with
    | (Except.error _, _, calls0) => (QueryReply.serverError chatFailMsg, calls0)
    | (Except.ok _, _, calls0) =>
      match b.embedResult with
      | Except.error _ => (QueryReply.serverError chatFailMsg, calls0 ++ [NetCall.embed])
      | Except.ok vecs =>
        let qv := (req.query).getD ("")
        let sreq : SearchRequest := ⟨vecs.head?, cfg.topK, buildFilter req.category⟩
        let calls1 := calls0 ++ [NetCall.embed, NetCall.search sreq]
        match b.searchResult with
        | Except.error _ => (QueryReply.serverError chatFailMsg, calls1)
        | Except.ok hits =>
          if hits.length = 0 then
            (QueryReply.success noInfoAnswer [], calls1)
          else
            let contexts := hits.map fun h => h.payload.text
            let order := rerankContexts b.rerankConfigured qv contexts b.rerankBackend
            let calls2 := calls1 ++ (if b.rerankConfigured then [NetCall.rerank] else [])
            let out := respondStage cfg qv b hits order
            (out.1, calls2 ++ out.2)
  else
    (QueryReply.badRequest ("query is required"), [])

/-- Body of the ingest request; absent fields model undefined. -/
structure IngestRequest where
  text : Option String
  category : Option String
  title : Option String
deriving DecidableEq

/-- Outcomes of every backend the ingest handler can reach, plus the
generated ids (uuidv4 is modelled as an oracle). -/
structure IngestBackends where
  ensureCheckFails : Bool
  ensureCreateFails : Bool
  documentId : String
  pointIds : Nat → String
  embedResult : Except Unit (List (List ℚ))
  upsertFails : Bool

/-- Reply of the ingest endpoint. -/
inductive IngestReply where
  | badRequest : String → IngestReply
  | serverError : String → IngestReply
  | success : String → Nat → IngestReply
deriving DecidableEq

/-- The `/ingest/text` handler. Validation happens before any network
call; then provision, chunk, embed, build points and upsert. -/
def ingestText (req : IngestRequest) (b : IngestBackends)
    (s : QdrantState) : IngestReply × List NetCall :=
  if truthyStr req.text && truthyStr req.category then
    match ensureCollection s b.ensureCheckFails b.ensureCreateFails with
    | (Except.error _, _, calls0) => (IngestReply.serverError ingestFailMsg, calls0)
    | (Except.ok _, _, calls0) =>
      let chunks := chunkText ((req.text).getD ("")) 500
      match b.embedResult with
      | Except.error _ => (IngestReply.serverError ingestFailMsg, calls0 ++ [NetCall.embed])
      | Except.ok vectors =>
        let points : List Point := chunks.enum.map fun p =>
          ⟨b.pointIds p.1,
           ⟨b.documentId, (req.category).getD (""), p.2, jsOrStr req.title ("")⟩,
           vectors.get? p.1⟩
        if b.upsertFails then
          (IngestReply.serverError ingestFailMsg, calls0 ++ [NetCall.embed, NetCall.upsert points])
        else
          (IngestReply.success b.documentId points.length,
           calls0 ++ [NetCall.embed, NetCall.upsert points])
  else
    (IngestReply.badRequest ("text and category are required"), [])

/-- First concrete hit used by the witness scenarios. -/
def hitA : Hit :=
  ⟨("idA"), 1, ⟨("docA"), ("cs"), ("textA"), ("")⟩⟩

/-- Second concrete hit used by the witness scenarios. -/
def hitB : Hit :=
  ⟨("idB"), 1, ⟨("docB"), ("cs"), ("textB"), ("")⟩⟩

/-- Witness configuration: the service defaults TOP_K = 20,
MAX_CONTEXT = 8. -/
def cfgW : Config :=
  ⟨20, 8⟩

/-- Witness store state: the collection already exists. -/
def stateW : QdrantState :=
  ⟨true⟩

/-- Witness backends: every stage succeeds, the search returns two hits,
the configured reranker scores the second hit higher, and the Ollama
provider answers. -/
def backendsW : QueryBackends :=
  ⟨false, false, Except.ok [[(1 : ℚ)]], Except.ok [hitA, hitB], true,
   RerankBackendResult.scores [(1 : ℚ), (9 : ℚ)], Provider.ollama,
   Except.ok ⟨some ("ans")⟩, Except.error ()⟩

/-- Witness backends for the zero-hit scenario: the search succeeds with
no hits. -/
def backendsZero : QueryBackends :=
  ⟨false, false, Except.ok [[(1 : ℚ)]], Except.ok [], false,
   RerankBackendResult.netError, Provider.ollama,
   Except.ok ⟨some ("ans")⟩, Except.error ()⟩

/-- Witness ingest backends. -/
def ingestBackendsW : IngestBackends :=
  ⟨false, false, ("doc1"), (fun _ => ("pt")), Except.ok [], false⟩

/-- Correct relative order of two score/index pairs after the stable
descending sort: strictly larger score first, ties by original index. -/
def rankLt (p q : ℚ × Nat) : Prop :=
  q.1 < p.1 ∨ (p.1 = q.1 ∧ p.2 < q.2)

/-- Every element of the list except possibly the last differs from `e`.
With `e` the empty piece, this is the shape of the piece list a JS
whitespace split produces from a separator state onwards. -/
def frontBy {α : Type} (e : α) : List α → Prop
  | x :: y :: t => x ≠ e ∧ frontBy e (y :: t)
  | _ => True

/-- Every element of the list except possibly the first and the last
differs from `e`. With `e` the empty piece, this is the shape of a full
JS whitespace split (only a leading or trailing whitespace run yields an
empty piece) and of every contiguous slice of one. -/
def midFreeBy {α : Type} (e : α) : List α → Prop
  | _ :: y :: z :: t => y ≠ e ∧ midFreeBy e (y :: z :: t)
  | _ => True

/-- Character-level single-space join, the image of `jsJoin " "` under
String.data. -/
def joinChars : List (List Char) → List Char
  | [] => []
  | [w] => w
  | w :: y :: rest => w ++ ' ' :: joinChars (y :: rest)

theorem insertDesc_perm (p : ℚ × Nat) (l : List (ℚ × Nat)) :
    (insertDesc p l).Perm (p :: l) := by
  induction l with
  | nil => simp [insertDesc]
  | cons q rest ih =>
    by_cases h : q.1 < p.1
    · simp [insertDesc, h]
    · simp only [insertDesc, if_neg h]
      exact (ih.cons q).trans (List.Perm.swap p q rest)

theorem insertDesc_pairwise (p : ℚ × Nat) (l : List (ℚ × Nat))
    (hl : l.Pairwise rankLt) (hidx : ∀ q ∈ l, q.2 < p.2) :
    (insertDesc p l).Pairwise rankLt := by
  induction l with
  | nil => simp [insertDesc, rankLt]
  | cons q rest ih =>
    rcases List.pairwise_cons.1 hl with ⟨hq, hrest⟩
    by_cases h : q.1 < p.1
    · simp only [insertDesc, if_pos h]
      refine List.pairwise_cons.2 ⟨?_, hl⟩
      intro x hx
      rcases List.mem_cons.1 hx with rfl | hx'
      · exact Or.inl h
      · rcases hq x hx' with hlt | ⟨heq, _⟩
        · exact Or.inl (hlt.trans h)
        · exact Or.inl (heq ▸ h)
    · simp only [insertDesc, if_neg h]
      refine List.pairwise_cons.2 ⟨?_, ih hrest fun x hx => hidx x (List.mem_cons_of_mem q hx)⟩
      intro x hx
      rcases List.mem_cons.1 ((insertDesc_perm p rest).mem_iff.1 hx) with rfl | hx'
      · rcases lt_or_eq_of_le (le_of_not_lt h) with hlt | heq
        · exact Or.inl hlt
        · exact Or.inr ⟨heq.symm, hidx q (List.mem_cons_self q rest)⟩
      · exact hq x hx'

theorem sortDesc_invariant (l : List (ℚ × Nat)) :
    ∀ acc : List (ℚ × Nat),
      acc.Pairwise rankLt →
      (∀ x ∈ acc, ∀ y ∈ l, x.2 < y.2) →
      (l.Pairwise fun x y => x.2 < y.2) →
      (List.foldl (fun acc q => insertDesc q acc) acc l).Pairwise rankLt
        ∧ (List.foldl (fun acc q => insertDesc q acc) acc l).Perm (acc ++ l) := by
  induction l with
  | nil =>
    intro acc hacc _ _
    simp only [List.foldl_nil, List.append_nil]
    exact ⟨hacc, List.Perm.refl acc⟩
  | cons e l' ih =>
    intro acc hacc hcross hl
    rcases List.pairwise_cons.1 hl with ⟨he, hl'⟩
    have hins_pw : (insertDesc e acc).Pairwise rankLt :=
      insertDesc_pairwise e acc hacc fun x hx => hcross x hx e (List.mem_cons_self e l')
    have hins_perm := insertDesc_perm e acc
    have hcross' : ∀ x ∈ insertDesc e acc, ∀ y ∈ l', x.2 < y.2 := by
      intro x hx y hy
      rcases List.mem_cons.1 (hins_perm.mem_iff.1 hx) with rfl | hx'
      · exact he y hy
      · exact hcross x hx' y (List.mem_cons_of_mem e hy)
    have hmain := ih (insertDesc e acc) hins_pw hcross' hl'
    refine ⟨hmain.1, hmain.2.trans ?_⟩
    exact ((hins_perm.append_right l').trans List.perm_middle.symm)

theorem enumFrom_pairwise_fst {α : Type} (s : List α) :
    ∀ n, (List.enumFrom n s).Pairwise fun a b => a.1 < b.1 := by
  induction s with
  | nil => intro n; simp
  | cons x xs ih =>
    intro n
    rw [List.enumFrom_cons]
    refine List.pairwise_cons.2 ⟨?_, ih (n + 1)⟩
    intro y hy
    have hmem := List.mem_enumFrom (show (y.1, y.2) ∈ List.enumFrom (n + 1) xs from hy)
    exact lt_of_lt_of_le (Nat.lt_succ_self n) hmem.1

theorem pairsOf_idx_lt (s : List ℚ) : (pairsOf s).Pairwise fun x y => x.2 < y.2 := by
  unfold pairsOf
  rw [List.pairwise_map]
  exact enumFrom_pairwise_fst s 0

theorem pairsOf_fst (s : List ℚ) : ∀ p ∈ pairsOf s, p.1 = s.getD p.2 0 := by
  intro p hp
  rcases List.mem_map.1 hp with ⟨a, ha, rfl⟩
  have hmem := List.mem_enumFrom (show (a.1, a.2) ∈ List.enumFrom 0 s from ha)
  have hlt : a.1 < s.length := by simpa using hmem.2.1
  have hval : a.2 = s[a.1 - 0] := hmem.2.2
  simp only [Nat.sub_zero] at hval
  simp [hval, List.getD_eq_getElem?_getD, List.getElem?_eq_getElem hlt]

theorem pairsOf_map_snd (s : List ℚ) :
    ((pairsOf s).map fun p => p.2) = List.range s.length := by
  unfold pairsOf
  rw [List.map_map]
  exact List.enum_map_fst s

theorem sortDesc_perm_pairsOf (s : List ℚ) :
    (sortDesc (pairsOf s)).Perm (pairsOf s)
      ∧ (sortDesc (pairsOf s)).Pairwise rankLt := by
  have h := sortDesc_invariant (pairsOf s) [] (by simp) (by simp) (pairsOf_idx_lt s)
  exact ⟨by simpa [sortDesc] using h.2, by simpa [sortDesc] using h.1⟩

theorem sortPerm_perm (s : List ℚ) : (sortPerm s).Perm (List.range s.length) := by
  unfold sortPerm
  have hperm := (sortDesc_perm_pairsOf s).1.map fun p => p.2
  rwa [pairsOf_map_snd] at hperm

theorem sortPerm_length (s : List ℚ) : (sortPerm s).length = s.length := by
  have := (sortPerm_perm s).length_eq
  simpa using this

theorem sortPerm_pairwise (s : List ℚ) :
    (sortPerm s).Pairwise fun i j =>
      s.getD j 0 < s.getD i 0 ∨ (s.getD i 0 = s.getD j 0 ∧ i < j) := by
  unfold sortPerm
  rw [List.pairwise_map]
  have hpw := (sortDesc_perm_pairsOf s).2
  have hmem : ∀ p ∈ sortDesc (pairsOf s), p.1 = s.getD p.2 0 := fun p hp =>
    pairsOf_fst s p ((sortDesc_perm_pairsOf s).1.mem_iff.1 hp)
  refine hpw.imp_of_mem ?_
  intro a b ha hb hr
  rcases hr with hlt | ⟨heq, hidx⟩
  · exact Or.inl (by rw [← hmem a ha, ← hmem b hb]; exact hlt)
  · exact Or.inr ⟨by rw [← hmem a ha, ← hmem b hb]; exact heq, hidx⟩

theorem identityPerm_eq_range {α : Type} (l : List α) :
    (l.enum.map fun p => p.1) = List.range l.length :=
  List.enum_map_fst l

theorem jsJoin_data (ws : List String) :
    (jsJoin (" ") ws).data = joinChars (ws.map String.data) := by
  induction ws with
  | nil => rfl
  | cons w rest ih =>
    cases rest with
    | nil => rfl
    | cons y t =>
      show (w ++ (" ") ++ jsJoin (" ") (y :: t)).data = joinChars (w.data :: (y :: t).map String.data)
      rw [String.data_append, String.data_append, ih]
      show w.data ++ [' '] ++ joinChars ((y :: t).map String.data) = w.data ++ ' ' :: joinChars ((y :: t).map String.data)
      simp

theorem jsSplitAux_ws_step (c : Char) (hc : c.isWhitespace = true) (cs cur : List Char) :
    jsSplitAux (c :: cs) (some cur) = cur.reverse :: jsSplitAux cs none := by
  simp [jsSplitAux, hc]

theorem jsSplitAux_accum : ∀ (w cs cur : List Char), (∀ c ∈ w, ¬c.isWhitespace) →
    jsSplitAux (w ++ cs) (some cur) = jsSplitAux cs (some (w.reverse ++ cur)) := by
  intro w
  induction w with
  | nil =>
    intro cs cur _
    simp
  | cons c w' ih =>
    intro cs cur hw
    have hc : ¬c.isWhitespace = true := hw c (List.mem_cons_self c w')
    show jsSplitAux (c :: (w' ++ cs)) (some cur) = _
    simp only [jsSplitAux, if_neg hc]
    rw [ih cs (c :: cur) fun x hx => hw x (List.mem_cons_of_mem c hx)]
    simp [List.append_assoc]

theorem jsSplitAux_none_eq_some_nil (cs : List Char)
    (h : ∀ c, cs.head? = some c → ¬c.isWhitespace) :
    jsSplitAux cs none = jsSplitAux cs (some []) := by
  cases cs with
  | nil => rfl
  | cons c rest =>
    have hc : ¬c.isWhitespace = true := h c rfl
    simp [jsSplitAux, hc]

theorem frontBy_cons {α : Type} (e : α) (x : α) (l : List α) (hx : x ≠ e)
    (hl : frontBy e l) : frontBy e (x :: l) := by
  cases l with
  | nil => trivial
  | cons y t => exact ⟨hx, hl⟩

theorem midFreeBy_of_front {α : Type} (e : α) :
    ∀ (l : List α) (x : α), frontBy e l → midFreeBy e (x :: l) := by
  intro l
  induction l with
  | nil => intro x _; trivial
  | cons y t ih =>
    intro x hf
    cases t with
    | nil => trivial
    | cons z t' =>
      rcases hf with ⟨hy, hf'⟩
      exact ⟨hy, ih y hf'⟩

theorem midFreeBy_tail {α : Type} (e : α) (x : α) (l : List α)
    (h : midFreeBy e (x :: l)) : midFreeBy e l := by
  cases l with
  | nil => trivial
  | cons y t =>
    cases t with
    | nil => trivial
    | cons z t' => exact h.2

theorem midFreeBy_append_left {α : Type} (e : α) :
    ∀ l₁ l₂ : List α, midFreeBy e (l₁ ++ l₂) → midFreeBy e l₁ := by
  intro l₁ l₂
  induction l₁ with
  | nil => intro _; trivial
  | cons x l ih =>
    intro h
    cases l with
    | nil => trivial
    | cons y t =>
      cases t with
      | nil => trivial
      | cons z t' =>
        rw [List.cons_append] at h
        exact ⟨h.1, ih (midFreeBy_tail e x _ h)⟩

theorem midFreeBy_append_right {α : Type} (e : α) :
    ∀ l₁ l₂ : List α, midFreeBy e (l₁ ++ l₂) → midFreeBy e l₂ := by
  intro l₁ l₂
  induction l₁ with
  | nil => intro h; exact h
  | cons x l ih =>
    intro h
    exact ih (midFreeBy_tail e x _ (by simpa using h))

theorem midFreeBy_map {α β : Type} (e : α) (d : β) (f : α → β)
    (hf : ∀ x, f x = d → x = e) :
    ∀ l : List α, midFreeBy e l → midFreeBy d (l.map f) := by
  intro l
  induction l with
  | nil => intro _; trivial
  | cons x l ih =>
    intro h
    cases l with
    | nil => trivial
    | cons y t =>
      cases t with
      | nil => trivial
      | cons z t' =>
        exact ⟨fun hc => h.1 (hf y hc), ih h.2⟩

theorem jsSplitAux_ne_nil : ∀ (cs : List Char) (st : Option (List Char)),
    jsSplitAux cs st ≠ [] := by
  intro cs
  induction cs with
  | nil =>
    intro st
    cases st <;> simp [jsSplitAux]
  | cons c rest ih =>
    intro st
    by_cases hw : c.isWhitespace = true <;>
      cases st <;> simp [jsSplitAux, hw] <;> apply ih

/-- Shape of the split state machine: from the separator state every
piece but the last is nonempty; from an accumulating state with a
nonempty accumulator the same holds, and in general it holds for all
pieces after the first. -/
theorem jsSplitAux_shape : ∀ cs : List Char,
    frontBy ([] : List Char) (jsSplitAux cs none)
    ∧ (∀ cur, cur ≠ [] → frontBy ([] : List Char) (jsSplitAux cs (some cur)))
    ∧ (∀ cur, frontBy ([] : List Char) (List.tail (jsSplitAux cs (some cur)))) := by
  intro cs
  induction cs with
  | nil =>
    refine ⟨trivial, ?_, ?_⟩
    · intro cur _
      trivial
    · intro cur
      trivial
  | cons c rest ih =>
    by_cases hw : c.isWhitespace = true
    · refine ⟨?_, ?_, ?_⟩
      · simpa [jsSplitAux, hw] using ih.1
      · intro cur hcur
        rw [show jsSplitAux (c :: rest) (some cur) = cur.reverse :: jsSplitAux rest none from by
          simp [jsSplitAux, hw]]
        exact frontBy_cons _ _ _ (by simpa using hcur) ih.1
      · intro cur
        rw [show jsSplitAux (c :: rest) (some cur) = cur.reverse :: jsSplitAux rest none from by
          simp [jsSplitAux, hw]]
        exact ih.1
    · refine ⟨?_, ?_, ?_⟩
      · rw [show jsSplitAux (c :: rest) none = jsSplitAux rest (some [c]) from by
          simp [jsSplitAux, hw]]
        exact ih.2.1 [c] (by simp)
      · intro cur _
        rw [show jsSplitAux (c :: rest) (some cur) = jsSplitAux rest (some (c :: cur)) from by
          simp [jsSplitAux, hw]]
        exact ih.2.1 (c :: cur) (by simp)
      · intro cur
        rw [show jsSplitAux (c :: rest) (some cur) = jsSplitAux rest (some (c :: cur)) from by
          simp [jsSplitAux, hw]]
        exact ih.2.2 (c :: cur)

theorem eq_empty_of_data_nil (w : String) (h : w.data = []) : w = ("") := by
  cases w with
  | mk d =>
    have hdd : d = [] := h
    rw [hdd]

/-- A JS whitespace split only yields empty pieces in the first or last
position. -/
theorem jsSplitWs_midFree (s : String) : midFreeBy ("") (jsSplitWs s) := by
  unfold jsSplitWs
  refine midFreeBy_map ([] : List Char) ("") String.mk ?_ _ ?_
  · intro x hx
    have : x = ("" : String).data := congrArg String.data hx
    simpa using this
  · rcases hE : jsSplitAux s.data (some []) with _ | ⟨x, t⟩
    · exact absurd hE (jsSplitAux_ne_nil s.data (some []))
    · refine midFreeBy_of_front ([] : List Char) t x ?_
      have := (jsSplitAux_shape s.data).2.2 []
      rw [hE] at this
      exact this

theorem jsSplitAux_joinChars : ∀ groups : List (List Char), groups ≠ [] →
    (∀ g ∈ groups, ∀ c ∈ g, ¬c.isWhitespace) →
    midFreeBy ([] : List Char) groups →
    jsSplitAux (joinChars groups) (some []) = groups := by
  intro groups
  induction groups with
  | nil => intro h; exact absurd rfl h
  | cons g rest ih =>
    intro _ hws hmid
    have hg_ws : ∀ c ∈ g, ¬c.isWhitespace := hws g (List.mem_cons_self g rest)
    cases rest with
    | nil =>
      show jsSplitAux g (some []) = [g]
      have hacc := jsSplitAux_accum g [] [] hg_ws
      simp only [List.append_nil] at hacc
      rw [hacc]
      simp [jsSplitAux]
    | cons y t =>
      have hy_ws : ∀ c ∈ y, ¬c.isWhitespace :=
        hws y (List.mem_cons_of_mem g (List.mem_cons_self y t))
      show jsSplitAux (g ++ ' ' :: joinChars (y :: t)) (some []) = g :: y :: t
      rw [jsSplitAux_accum g (' ' :: joinChars (y :: t)) [] hg_ws]
      rw [jsSplitAux_ws_step ' ' rfl]
      simp only [List.append_nil, List.reverse_reverse]
      congr 1
      by_cases hy : y = []
      · cases t with
        | nil =>
          subst hy
          rfl
        | cons z t' =>
          exact absurd hy hmid.1
      · have hhead : ∀ c, (joinChars (y :: t)).head? = some c → ¬c.isWhitespace := by
          cases y with
          | nil => exact absurd rfl hy
          | cons c0 y' =>
            intro c hcc
            cases t with
            | nil =>
              simp only [joinChars, List.head?] at hcc
              cases hcc
              exact hy_ws c0 (List.mem_cons_self c0 y')
            | cons z t' =>
              simp only [joinChars, List.cons_append, List.head?] at hcc
              cases hcc
              exact hy_ws c0 (List.mem_cons_self c0 y')
        rw [jsSplitAux_none_eq_some_nil _ hhead]
        exact ih (by simp) (fun g' hg' => hws g' (List.mem_cons_of_mem g hg'))
          (midFreeBy_tail ([] : List Char) g _ hmid)

/-- The JS split is a left inverse of the single-space join on every list
of whitespace-free pieces in which only the first and the last piece may
be empty — the shape of every contiguous slice of a JS split. -/
theorem jsSplitWs_jsJoin (ws : List String) (hne : ws ≠ [])
    (hws : ∀ w ∈ ws, ∀ c ∈ w.data, ¬c.isWhitespace)
    (hmid : midFreeBy ("") ws) :
    jsSplitWs (jsJoin (" ") ws) = ws := by
  unfold jsSplitWs
  have hws' : ∀ g ∈ ws.map String.data, ∀ c ∈ g, ¬c.isWhitespace := by
    intro g hg
    rcases List.mem_map.1 hg with ⟨w, hw, rfl⟩
    exact hws w hw
  have hmid' : midFreeBy ([] : List Char) (ws.map String.data) :=
    midFreeBy_map ("") ([] : List Char) String.data
      (fun x hx => eq_empty_of_data_nil x hx) ws hmid
  rw [jsJoin_data, jsSplitAux_joinChars (ws.map String.data) (by simpa using hne) hws' hmid']
  rw [List.map_map]
  exact List.map_id ws

theorem chunkAux_length (L : Nat) (hL : 0 < L) :
    ∀ (ws cur : List String) (cnt : Nat), cnt = cur.length → cnt < L →
      (chunkAux L ws cur cnt).length = (cur.length + ws.length + L - 1) / L := by
  intro ws
  induction ws with
  | nil =>
    intro cur cnt hcnt hlt
    subst hcnt
    by_cases h : 0 < cur.length
    · simp only [chunkAux, if_pos h, List.length_singleton, List.length_nil]
      have h1 : 1 * L ≤ cur.length + 0 + L - 1 := by omega
      have h2 : cur.length + 0 + L - 1 < (1 + 1) * L := by omega
      exact (Nat.div_eq_of_lt_le h1 h2).symm
    · have hc : cur.length = 0 := by omega
      simp only [chunkAux, if_neg h, List.length_nil, hc]
      have : 0 + 0 + L - 1 < L := by omega
      exact (Nat.div_eq_of_lt this).symm
  | cons w ws' ih =>
    intro cur cnt hcnt hlt
    subst hcnt
    by_cases h : L ≤ cur.length + 1
    · simp only [chunkAux, if_pos h, List.length_cons]
      rw [ih [] 0 rfl hL]
      have hnum : cur.length + (ws'.length + 1) + L - 1 = (0 + ws'.length + L - 1) + L := by
        omega
      rw [hnum, Nat.add_div_right _ hL]
      simp
    · have hlt' : cur.length + 1 < L := by omega
      simp only [chunkAux, if_neg h, List.length_cons]
      rw [ih (cur ++ [w]) (cur.length + 1) (by simp) hlt']
      congr 1
      simp only [List.length_append, List.length_singleton]
      omega

theorem chunkAux_flatten (L : Nat) :
    ∀ (ws cur : List String) (cnt : Nat), cnt = cur.length → cnt < L →
      (∀ w ∈ cur ++ ws, ∀ c ∈ w.data, ¬c.isWhitespace) →
      midFreeBy ("") (cur ++ ws) →
      ((chunkAux L ws cur cnt).map jsSplitWs).flatten = cur ++ ws := by
  intro ws
  induction ws with
  | nil =>
    intro cur cnt hcnt hlt hws hmid
    subst hcnt
    by_cases h : 0 < cur.length
    · have hcur_ne : cur ≠ [] := by
        intro hc
        rw [hc] at h
        simp at h
      simp only [chunkAux, if_pos h, List.map_cons, List.map_nil, List.flatten]
      rw [jsSplitWs_jsJoin cur hcur_ne (fun x hx => hws x (by simpa using hx))
        (by simpa using hmid)]
    · have hc : cur = [] := by
        cases cur with
        | nil => rfl
        | cons a l => simp at h
      simp [chunkAux, h, hc]
  | cons w ws' ih =>
    intro cur cnt hcnt hlt hws hmid
    subst hcnt
    have hassoc : (cur ++ [w]) ++ ws' = cur ++ w :: ws' := by simp
    have hws1 : ∀ x ∈ cur ++ [w], ∀ c ∈ x.data, ¬c.isWhitespace := by
      intro x hx
      rcases List.mem_append.1 hx with h1 | h1
      · exact hws x (List.mem_append_left _ h1)
      · simp only [List.mem_singleton] at h1
        subst h1
        exact hws x (by simp)
    by_cases h : L ≤ cur.length + 1
    · have hL : 0 < L := by omega
      simp only [chunkAux, if_pos h, List.map_cons, List.flatten]
      have hmid1 : midFreeBy ("") (cur ++ [w]) :=
        midFreeBy_append_left ("") (cur ++ [w]) ws' (by rw [hassoc]; exact hmid)
      rw [jsSplitWs_jsJoin (cur ++ [w]) (by simp) hws1 hmid1]
      rw [ih [] 0 rfl hL ?_ ?_]
      · simp [List.append_assoc]
      · intro x hx
        simp only [List.nil_append] at hx
        exact hws x (List.mem_append_right _ (List.mem_cons_of_mem w hx))
      · have := midFreeBy_append_right ("") (cur ++ [w]) ws' (by rw [hassoc]; exact hmid)
        simpa using this
    · simp only [chunkAux, if_neg h]
      rw [ih (cur ++ [w]) (cur.length + 1) (by simp) (by omega) ?_ ?_]
      · simp [List.append_assoc]
      · intro x hx
        apply hws
        simpa [List.append_assoc] using hx
      · rw [hassoc]
        exact hmid

theorem getD_map_lt {α β : Type} (f : α → β) (l : List α) (k : Nat) (d : β) (d' : α)
    (hk : k < l.length) : (l.map f).getD k d = f (l.getD k d') := by
  induction l generalizing k with
  | nil => simp at hk
  | cons x xs ih =>
    cases k with
    | zero => simp
    | succ k' =>
      simp only [List.map_cons, List.getD_cons_succ]
      exact ih k' (by simpa using hk)

theorem markFrom_getD (ctxs : List String) : ∀ (n k : Nat), k < ctxs.length →
    (markFrom n ctxs).getD k ("") =
      ("[") ++ toString (n + k + 1) ++ ("] ") ++ ctxs.getD k ("") := by
  induction ctxs with
  | nil =>
    intro n k hk
    simp at hk
  | cons c rest ih =>
    intro n k hk
    cases k with
    | zero => simp [markFrom]
    | succ k' =>
      simp only [markFrom, List.getD_cons_succ]
      rw [ih (n + 1) k' (by simpa using hk)]
      have harith : n + 1 + k' + 1 = n + (k' + 1) + 1 := by omega
      rw [harith]

theorem jsSplitAux_no_ws : ∀ (cs : List Char) (st : Option (List Char)),
    (∀ cur, st = some cur → ∀ c ∈ cur, ¬c.isWhitespace) →
    ∀ g ∈ jsSplitAux cs st, ∀ c ∈ g, ¬c.isWhitespace := by
  intro cs
  induction cs with
  | nil =>
    intro st hst g hg c hc
    cases st with
    | some cur =>
      simp only [jsSplitAux, List.mem_singleton] at hg
      subst hg
      exact hst cur rfl c (by simpa using hc)
    | none =>
      simp only [jsSplitAux, List.mem_singleton] at hg
      subst hg
      simp at hc
  | cons ch rest ih =>
    intro st hst g hg c hc
    cases st with
    | some cur =>
      by_cases hw : ch.isWhitespace = true
      · rw [show jsSplitAux (ch :: rest) (some cur) = cur.reverse :: jsSplitAux rest none from by
          simp [jsSplitAux, hw]] at hg
        rcases List.mem_cons.1 hg with rfl | hg'
        · exact hst cur rfl c (by simpa using hc)
        · exact ih none (by intro cur' h; cases h) g hg' c hc
      · rw [show jsSplitAux (ch :: rest) (some cur) = jsSplitAux rest (some (ch :: cur)) from by
          simp [jsSplitAux, hw]] at hg
        refine ih (some (ch :: cur)) ?_ g hg c hc
        intro cur' h x hx
        cases h
        rcases List.mem_cons.1 hx with rfl | hx'
        · exact hw
        · exact hst cur rfl x hx'
    | none =>
      by_cases hw : ch.isWhitespace = true
      · rw [show jsSplitAux (ch :: rest) none = jsSplitAux rest none from by
          simp [jsSplitAux, hw]] at hg
        exact ih none (by intro cur' h; cases h) g hg c hc
      · rw [show jsSplitAux (ch :: rest) none = jsSplitAux rest (some [ch]) from by
          simp [jsSplitAux, hw]] at hg
        refine ih (some [ch]) ?_ g hg c hc
        intro cur' h x hx
        cases h
        rcases List.mem_cons.1 hx with rfl | hx'
        · exact hw
        · simp at hx'

theorem jsSplitWs_no_ws (s : String) : ∀ w ∈ jsSplitWs s, ∀ c ∈ w.data, ¬c.isWhitespace := by
  intro w hw c hc
  rcases List.mem_map.1 hw with ⟨g, hg, rfl⟩
  exact jsSplitAux_no_ws s.data (some [])
    (by intro cur h x hx; cases h; simp at hx) g hg c hc

theorem ensureCollection_ok_cases (s : QdrantState) (cf : Bool) :
    ensureCollection s cf false = (Except.ok (), s, [NetCall.provisionCheck])
    ∨ ensureCollection s cf false
        = (Except.ok (), (⟨true⟩ : QdrantState), [NetCall.provisionCheck, NetCall.provisionCreate]) := by
  by_cases h : (s.collectionExists && !cf) = true
  · left
    simp [ensureCollection, h]
  · right
    simp only [ensureCollection]
    rw [if_neg (by simpa using h)]
    simp

theorem respondStage_provider_only (cfg : Config) (qv : String) (b b' : QueryBackends)
    (hits : List Hit) (order : List Nat)
    (hp : b'.provider = b.provider) (ho : b'.ollamaResult = b.ollamaResult)
    (he : b'.openaiResult = b.openaiResult) :
    respondStage cfg qv b' hits order = respondStage cfg qv b hits order := by
  simp only [respondStage, hp, ho, he]

/-- C5: rerankContexts returns the identity permutation [0..n-1] whenever
no rerank backend is configured; when configured and the backend returns
per-text scores it returns the indices sorted by descending score with
ties preserving the original relative order (stable sort), and on scores
[0.2, 0.9, 0.5] it returns [1, 2, 0]. -/
theorem c5_rerank_ordering :
    (∀ (q : String) (ctxs : List String) (br : RerankBackendResult),
        rerankContexts false q ctxs br = List.range ctxs.length)
    ∧ (∀ (q : String) (ctxs : List String) (s : List ℚ),
        (rerankContexts true q ctxs (RerankBackendResult.scores s)).Perm (List.range s.length)
        ∧ (rerankContexts true q ctxs (RerankBackendResult.scores s)).Pairwise fun i j =>
            s.getD j 0 < s.getD i 0 ∨ (s.getD i 0 = s.getD j 0 ∧ i < j))
    ∧ rerankContexts true ("q") [("A"), ("B"), ("C")]
        (RerankBackendResult.scores [(0.2 : ℚ), 0.9, 0.5]) = [1, 2, 0] := by
  refine ⟨?_, ?_, ?_⟩
  · intro q ctxs br
    simp only [rerankContexts, if_pos rfl]
    exact identityPerm_eq_range ctxs
  · intro q ctxs s
    constructor
    · simpa [rerankContexts] using sortPerm_perm s
    · simpa [rerankContexts] using sortPerm_pairwise s
  · norm_num [rerankContexts, sortPerm, pairsOf, sortDesc, insertDesc, List.enum,
      List.enumFrom]

/-- C9: when a backend is configured and returns a scores array, the
returned permutation is computed from the scores alone: it equals
sortPerm scores, has exactly scores.length elements, is a permutation of
[0..scores.length-1], and does not depend on the candidate texts at all,
so a backend returning more or fewer scores than texts yields a
permutation misaligned with the candidates. -/
theorem c9_perm_from_scores_alone (q : String) (ctxs : List String) (s : List ℚ) :
    rerankContexts true q ctxs (RerankBackendResult.scores s) = sortPerm s
    ∧ (rerankContexts true q ctxs (RerankBackendResult.scores s)).length = s.length
    ∧ (rerankContexts true q ctxs (RerankBackendResult.scores s)).Perm (List.range s.length)
    ∧ ∀ ctxs' : List String,
        rerankContexts true q ctxs (RerankBackendResult.scores s)
          = rerankContexts true q ctxs' (RerankBackendResult.scores s) := by
  refine ⟨by simp [rerankContexts], ?_, ?_, ?_⟩
  · simpa [rerankContexts] using sortPerm_length s
  · simpa [rerankContexts] using sortPerm_perm s
  · intro ctxs'
    simp [rerankContexts]

/-- C7 counterexample: under the Ollama provider, a successful response
whose body lacks the generated-text field does not make generateAnswer
fail; the undefined field is returned as the answer. -/
theorem c7_counterexample :
    generateAnswer Provider.ollama (Except.ok ⟨none⟩) (Except.error ())
      = Except.ok none :=
  rfl

/-- C7 (amended): both providers fail on a transport error or timeout;
the OpenAI-compatible provider fails when the choices list is missing or
empty and returns the first choice otherwise; the Ollama provider performs
no response-shape validation and returns the generated-text field as is,
producing the undefined value instead of an error when the field is
missing. -/
theorem c7_generator_errors :
    (∀ oai : Except Unit OpenAiBody,
        generateAnswer Provider.ollama (Except.error ()) oai = Except.error ())
    ∧ (∀ oll : Except Unit OllamaBody,
        generateAnswer Provider.openaiCompat oll (Except.error ()) = Except.error ())
    ∧ (∀ oll : Except Unit OllamaBody,
        generateAnswer Provider.openaiCompat oll (Except.ok ⟨none⟩) = Except.error ())
    ∧ (∀ oll : Except Unit OllamaBody,
        generateAnswer Provider.openaiCompat oll (Except.ok ⟨some []⟩) = Except.error ())
    ∧ (∀ (oll : Except Unit OllamaBody) (c : String) (cs : List String),
        generateAnswer Provider.openaiCompat oll (Except.ok ⟨some (c :: cs)⟩)
          = Except.ok (some c))
    ∧ (∀ (oai : Except Unit OpenAiBody) (r : Option String),
        generateAnswer Provider.ollama (Except.ok ⟨r⟩) oai = Except.ok r) := by
  refine ⟨fun oai => rfl, fun oll => rfl, fun oll => rfl, fun oll => rfl,
    fun oll c cs => rfl, fun oai r => rfl⟩

/-- C2 counterexample: on the empty text chunkText produces one chunk
containing the empty string, not zero chunks, because the JS split of the
empty string yields one empty piece. -/
theorem c2_counterexample :
    chunkText ("") 500 = [("")] ∧ (chunkText ("") 500).length ≠ 0 := by
  constructor
  · rfl
  · decide

/-- C2 (amended): for every text and every limit L ≥ 1, chunkText
produces exactly ceil(W/L) chunks where W counts the pieces of the JS
whitespace split — W equals the number of whitespace-delimited words
except that the empty text yields one empty piece (hence one chunk
containing the empty string, not zero) and a leading or trailing
whitespace run each contribute one empty piece; concatenating the words
(the split pieces) of all chunks in order reproduces the original piece
sequence exactly for every text, with no overlap and no loss. -/
theorem c2_chunking (text : String) (L : Nat) (hL : 0 < L) :
    (chunkText text L).length = ((jsSplitWs text).length + L - 1) / L
    ∧ ((chunkText text L).map jsSplitWs).flatten = jsSplitWs text := by
  constructor
  · have h := chunkAux_length L hL (jsSplitWs text) [] 0 rfl hL
    simpa [chunkText] using h
  · have hfl := chunkAux_flatten L (jsSplitWs text) [] 0 rfl hL
      (by
        intro w hw c hc
        exact jsSplitWs_no_ws text w (by simpa using hw) c hc)
      (by simpa using jsSplitWs_midFree text)
    simpa [chunkText] using hfl

/-- C2 witness: the text consisting of a space and one word, with limit 1,
gives two chunks (the empty piece and the word) whose split pieces
concatenate back to the original piece sequence — exactly the
leading-whitespace case. -/
theorem c2_witness :
    ((chunkText (" a") 1).length = ((jsSplitWs (" a")).length + 1 - 1) / 1)
    ∧ ((chunkText (" a") 1).map jsSplitWs).flatten = jsSplitWs (" a") :=
  c2_chunking (" a") 1 (by decide)

theorem getD_mem_of_lt {α : Type} (l : List α) (k : Nat) (d : α) (hk : k < l.length) :
    l.getD k d ∈ l := by
  rw [List.getD_eq_getElem?_getD, List.getElem?_eq_getElem hk]
  exact List.getElem_mem hk

/-- C6: ensureCollection is idempotent. After a first call whose creation
step succeeds, a second call with a working existence check observes the
collection, issues no creation request and succeeds, so the two calls
issue at most one creation request between them; a failing existence
check is treated as the collection being absent and triggers creation
rather than an error; and the function returns an error exactly when it
reaches the creation request and that request fails. -/
theorem c6_ensure_idempotent :
    (∀ (s : QdrantState) (cf1 crf2 : Bool),
        (ensureCollection (ensureCollection s cf1 false).2.1 false crf2).2.2.count
            NetCall.provisionCreate = 0
        ∧ (ensureCollection (ensureCollection s cf1 false).2.1 false crf2).1 = Except.ok ()
        ∧ (ensureCollection s cf1 false).2.2.count NetCall.provisionCreate
            + (ensureCollection (ensureCollection s cf1 false).2.1 false crf2).2.2.count
                NetCall.provisionCreate ≤ 1)
    ∧ (∀ (s : QdrantState) (crf : Bool),
        (ensureCollection s true crf).2.2.count NetCall.provisionCreate = 1
        ∧ ((ensureCollection s true crf).1 = Except.error () ↔ crf = true))
    ∧ (∀ (s : QdrantState) (cf crf : Bool),
        (ensureCollection s cf crf).1 = Except.error ()
          ↔ crf = true ∧ (s.collectionExists = false ∨ cf = true)) := by
  refine ⟨?_, ?_, ?_⟩
  · intro s cf1 crf2
    rcases s with ⟨e⟩
    cases e <;> cases cf1 <;> cases crf2 <;>
      simp [ensureCollection, List.count_cons, List.count_nil]
  · intro s crf
    rcases s with ⟨e⟩
    cases e <;> cases crf <;>
      simp [ensureCollection, List.count_cons, List.count_nil]
  · intro s cf crf
    rcases s with ⟨e⟩
    cases e <;> cases cf <;> cases crf <;> simp [ensureCollection]

/-- C4: with a configured rerank backend, a transport failure or a
response missing the scores array yields the identity permutation over
the candidates rather than an error, and such a rerank failure never
fails the whole query: the reply equals the one produced with reranking
unconfigured. -/
theorem c4_rerank_failure_absorbed :
    (∀ (q : String) (ctxs : List String),
        rerankContexts true q ctxs RerankBackendResult.netError = List.range ctxs.length)
    ∧ (∀ (q : String) (ctxs : List String),
        rerankContexts true q ctxs RerankBackendResult.malformed = List.range ctxs.length)
    ∧ (∀ (cfg : Config) (s : QdrantState) (qo cat : Option String) (cf cr : Bool)
        (emb : Except Unit (List (List ℚ))) (se : Except Unit (List Hit))
        (pr : Provider) (oll : Except Unit OllamaBody) (oai : Except Unit OpenAiBody)
        (isNet : Bool),
        (chatQuery cfg ⟨qo, cat⟩
            ⟨cf, cr, emb, se, true,
              (if isNet then RerankBackendResult.netError else RerankBackendResult.malformed),
              pr, oll, oai⟩ s).1
          = (chatQuery cfg ⟨qo, cat⟩
              ⟨cf, cr, emb, se, false, RerankBackendResult.netError, pr, oll, oai⟩ s).1) := by
  refine ⟨?_, ?_, ?_⟩
  · intro q ctxs
    simp only [rerankContexts]
    rw [if_neg (by simp)]
    exact identityPerm_eq_range ctxs
  · intro q ctxs
    simp only [rerankContexts]
    rw [if_neg (by simp)]
    exact identityPerm_eq_range ctxs
  · intro cfg s qo cat cf cr emb se pr oll oai isNet
    cases hq : truthyStr qo with
    | false => simp [chatQuery, hq]
    | true =>
      rcases hE : ensureCollection s cf cr with ⟨r0, s0, calls0⟩
      cases r0 with
      | error e => simp [chatQuery, hq, hE]
      | ok u =>
        cases emb with
        | error e => simp [chatQuery, hq, hE]
        | ok vecs =>
          cases se with
          | error e => simp [chatQuery, hq, hE]
          | ok hits =>
            by_cases hh : hits.length = 0
            · simp [chatQuery, hq, hE, hh]
            · cases isNet <;>
                simp [chatQuery, hq, hE, hh, rerankContexts, respondStage]

/-- C10: a chat query whose category field is the empty string issues
exactly the same pipeline as one omitting the category — in particular
the search request carries no filter — and a filter is attached exactly
for a non-empty category string. -/
theorem c10_empty_category_no_filter :
    (∀ (cfg : Config) (b : QueryBackends) (s : QdrantState) (qo : Option String),
        chatQuery cfg ⟨qo, some ("")⟩ b s = chatQuery cfg ⟨qo, none⟩ b s)
    ∧ buildFilter (some ("")) = none
    ∧ buildFilter none = none
    ∧ ∀ c : String, c ≠ ("") → buildFilter (some c) = some ⟨[⟨("category"), c⟩]⟩ := by
  refine ⟨?_, rfl, rfl, ?_⟩
  · intro cfg b s qo
    rfl
  · intro c hc
    simp [buildFilter, truthyStr, hc]

/-- C10 witness: the empty-category and omitted-category queries coincide
on concrete inputs, and a non-empty category yields the equality filter. -/
theorem c10_witness :
    chatQuery cfgW ⟨some ("hello"), some ("")⟩ backendsW stateW
        = chatQuery cfgW ⟨some ("hello"), none⟩ backendsW stateW
    ∧ buildFilter (some ("news")) = some ⟨[⟨("category"), ("news")⟩]⟩ :=
  ⟨c10_empty_category_no_filter.1 cfgW backendsW stateW (some ("hello")),
   c10_empty_category_no_filter.2.2.2 ("news") (by decide)⟩

/-- C8: a chat query with a missing or empty query string fails
immediately with the 400 invalid-request reply and issues no network
request at all, and the ingest endpoint likewise returns 400 with no
network requests when text or category is missing or empty. -/
theorem c8_validation_no_network :
    (∀ (cfg : Config) (req : ChatQueryRequest) (b : QueryBackends) (s : QdrantState),
        truthyStr req.query = false →
        chatQuery cfg req b s = (QueryReply.badRequest ("query is required"), []))
    ∧ (∀ (req : IngestRequest) (b : IngestBackends) (s : QdrantState),
        truthyStr req.text = false ∨ truthyStr req.category = false →
        ingestText req b s = (IngestReply.badRequest ("text and category are required"), [])) := by
  constructor
  · intro cfg req b s hq
    simp [chatQuery, hq]
  · intro req b s h
    rcases h with h | h <;> simp [ingestText, h]

/-- C8 witness: a missing query and an empty ingest category are rejected
with 400 and an empty call trace. -/
theorem c8_witness :
    chatQuery cfgW ⟨none, none⟩ backendsW stateW
        = (QueryReply.badRequest ("query is required"), [])
    ∧ ingestText ⟨some ("hi"), some (""), none⟩ ingestBackendsW stateW
        = (IngestReply.badRequest ("text and category are required"), []) :=
  ⟨c8_validation_no_network.1 cfgW ⟨none, none⟩ backendsW stateW rfl,
   c8_validation_no_network.2 ⟨some ("hi"), some (""), none⟩ ingestBackendsW stateW
     (Or.inr rfl)⟩

/-- C3: a valid query whose retrieval returns zero hits yields a success
reply carrying the fixed no-information answer and an empty citation
list, and neither a rerank request nor a generation request is issued. -/
theorem c3_zero_hits_short_circuit (cfg : Config) (req : ChatQueryRequest)
    (b : QueryBackends) (s : QdrantState) (vecs : List (List ℚ))
    (hq : truthyStr req.query = true)
    (hcr : b.ensureCreateFails = false)
    (hemb : b.embedResult = Except.ok vecs)
    (hse : b.searchResult = Except.ok []) :
    (chatQuery cfg req b s).1 = QueryReply.success noInfoAnswer []
    ∧ (∀ p : String, NetCall.generate p ∉ (chatQuery cfg req b s).2)
    ∧ NetCall.rerank ∉ (chatQuery cfg req b s).2 := by
  rcases ensureCollection_ok_cases s b.ensureCheckFails with hE | hE <;>
    simp [chatQuery, hq, hcr, hE, hemb, hse]

/-- C3 witness: the zero-hit scenario on concrete inputs. -/
theorem c3_witness :
    (chatQuery cfgW ⟨some ("what"), none⟩ backendsZero stateW).1
        = QueryReply.success noInfoAnswer []
    ∧ (∀ p : String,
        NetCall.generate p ∉ (chatQuery cfgW ⟨some ("what"), none⟩ backendsZero stateW).2)
    ∧ NetCall.rerank ∉ (chatQuery cfgW ⟨some ("what"), none⟩ backendsZero stateW).2 :=
  c3_zero_hits_short_circuit cfgW ⟨some ("what"), none⟩ backendsZero stateW
    [[(1 : ℚ)]] rfl rfl rfl rfl

/-- C1: after reranking, the chat handler takes the first maxContext
indices of the rerank permutation; the reply's citation list contains one
citation per selected hit in exactly the selection order, and the
1-indexed bracketed markers prefixed to the contexts of the prompt handed
to the generator follow the same order, so citation N is the context
marked [N]. -/
theorem c1_citation_alignment (cfg : Config) (req : ChatQueryRequest) (b : QueryBackends)
    (s : QdrantState) (hits : List Hit) (vecs : List (List ℚ)) (raw : String)
    (contexts : List String) (order sel : List Nat)
    (hq : truthyStr req.query = true)
    (hcr : b.ensureCreateFails = false)
    (hemb : b.embedResult = Except.ok vecs)
    (hse : b.searchResult = Except.ok hits)
    (hne : hits ≠ [])
    (hctx : contexts = hits.map fun h => h.payload.text)
    (hord : order = rerankContexts b.rerankConfigured ((req.query).getD ("")) contexts
        b.rerankBackend)
    (hsel : sel = order.take cfg.maxContext)
    (hrange : ∀ i ∈ sel, i < hits.length)
    (hgen : generateAnswer b.provider b.ollamaResult b.openaiResult = Except.ok (some raw)) :
    (chatQuery cfg req b s).1 = QueryReply.success (String.trim raw) (citationsOf hits sel)
    ∧ NetCall.generate
        (promptOf ((req.query).getD (""))
          (jsJoin sepNlNl (markedContexts (sel.map fun i => contexts.getD i ("")))))
        ∈ (chatQuery cfg req b s).2
    ∧ ∀ k, k < sel.length →
        (citationsOf hits sel).getD k citationDefault
            = citationOfHit (hits.getD (sel.getD k 0) hitDefault)
        ∧ (markedContexts (sel.map fun i => contexts.getD i ("" ))).getD k ("")
            = ("[") ++ toString (k + 1) ++ ("] ")
                ++ (hits.getD (sel.getD k 0) hitDefault).payload.text := by
  have hpart3 : ∀ k, k < sel.length →
      (citationsOf hits sel).getD k citationDefault
          = citationOfHit (hits.getD (sel.getD k 0) hitDefault)
      ∧ (markedContexts (sel.map fun i => contexts.getD i ("" ))).getD k ("")
          = ("[") ++ toString (k + 1) ++ ("] ")
              ++ (hits.getD (sel.getD k 0) hitDefault).payload.text := by
    intro k hk
    have hkr : sel.getD k 0 < hits.length := hrange _ (getD_mem_of_lt sel k 0 hk)
    constructor
    · unfold citationsOf
      exact getD_map_lt (fun i => citationOfHit (hits.getD i hitDefault)) sel k
        citationDefault 0 hk
    · unfold markedContexts
      rw [markFrom_getD _ 0 k (by simpa using hk)]
      rw [getD_map_lt (fun i => contexts.getD i ("")) sel k ("") 0 hk]
      rw [hctx, getD_map_lt (fun h => h.payload.text) hits (sel.getD k 0) ("") hitDefault hkr]
      rw [Nat.zero_add]
  refine ⟨?_, ?_, hpart3⟩
  · subst hctx hord hsel
    have hlen : ¬hits.length = 0 := by simpa [List.length_eq_zero] using hne
    have hall : (((rerankContexts b.rerankConfigured ((req.query).getD (""))
        (hits.map fun h => h.payload.text) b.rerankBackend).take cfg.maxContext).all
          fun i => decide (i < hits.length)) = true := by
      rw [List.all_eq_true]
      intro i hi
      simpa using hrange i hi
    rcases ensureCollection_ok_cases s b.ensureCheckFails with hE | hE <;>
      simp [chatQuery, respondStage, hq, hcr, hE, hemb, hse, hlen, hall, hgen]
  · subst hctx hord hsel
    have hlen : ¬hits.length = 0 := by simpa [List.length_eq_zero] using hne
    have hall : (((rerankContexts b.rerankConfigured ((req.query).getD (""))
        (hits.map fun h => h.payload.text) b.rerankBackend).take cfg.maxContext).all
          fun i => decide (i < hits.length)) = true := by
      rw [List.all_eq_true]
      intro i hi
      simpa using hrange i hi
    rcases ensureCollection_ok_cases s b.ensureCheckFails with hE | hE <;>
      simp [chatQuery, respondStage, hq, hcr, hE, hemb, hse, hlen, hall, hgen]

set_option maxRecDepth 8000 in
set_option maxHeartbeats 1000000 in
/-- C1 witness: with two hits and rerank scores [1, 9], the permutation is
[1, 0], the citations list is [citation of hitB, citation of hitA] and the
prompt markers [1], [2] carry the texts of hitB and then hitA. -/
theorem c1_witness :
    (chatQuery cfgW ⟨some ("what"), none⟩ backendsW stateW).1
        = QueryReply.success (String.trim ("ans")) (citationsOf [hitA, hitB] [1, 0])
    ∧ NetCall.generate
        (promptOf (((⟨some ("what"), none⟩ : ChatQueryRequest).query).getD (""))
          (jsJoin sepNlNl (markedContexts (([1, 0] : List Nat).map fun i =>
            ([hitA, hitB].map fun h => h.payload.text).getD i ("")))))
        ∈ (chatQuery cfgW ⟨some ("what"), none⟩ backendsW stateW).2
    ∧ ∀ k, k < ([1, 0] : List Nat).length →
        (citationsOf [hitA, hitB] [1, 0]).getD k citationDefault
            = citationOfHit ([hitA, hitB].getD (([1, 0] : List Nat).getD k 0) hitDefault)
        ∧ (markedContexts (([1, 0] : List Nat).map fun i =>
              ([hitA, hitB].map fun h => h.payload.text).getD i ("" ))).getD k ("")
            = ("[") ++ toString (k + 1) ++ ("] ")
                ++ ([hitA, hitB].getD (([1, 0] : List Nat).getD k 0) hitDefault).payload.text := by
  have h := c1_citation_alignment cfgW ⟨some ("what"), none⟩ backendsW stateW [hitA, hitB]
    [[(1 : ℚ)]] ("ans") ([hitA, hitB].map fun h => h.payload.text)
    (rerankContexts backendsW.rerankConfigured (((some ("what")) : Option String).getD (""))
      ([hitA, hitB].map fun h => h.payload.text) backendsW.rerankBackend)
    [1, 0] rfl rfl rfl rfl (by decide) rfl rfl (by decide) (by decide) rfl
  exact h

end Ragika
